import Mathlib

/-!
Verification of the zap subprocess library (src/zap/core.py) against its
natural-language specification.

The embedding is shallow: process execution is abstracted by a `World`
oracle that maps one child-process invocation (the data `_run_once`,
`_run_live` and `run_async` hand to the operating system) together with an
attempt number to an outcome (timeout, or captured stdout/stderr plus exit
code).  All of the library's own control flow — the retry loop of `run`,
the `check` policy, `ZapError` construction, the pipe operator, the env
overlay, the `lines` accessor, the live multiplexer's deadline gate and
the `cd` scope — is translated directly from the Python source.
-/

set_option maxHeartbeats 1000000

namespace Zap

/-! ### Python string primitives used by the source -/

/-- Whitespace recognised by the embedding of Python `str.strip()`:
the ASCII whitespace characters together with the Unicode whitespace
code points that the library's captured text can realistically contain. -/
def isPySpace (c : Char) : Bool :=
  c == ' ' || c == '\t' || c == '\n' || c == '\r' || c == '\x0b' || c == '\x0c' ||
  c == '\x1c' || c == '\x1d' || c == '\x1e' || c == '\x1f' || c == '\x85' ||
  c == '\xa0' || c == '\u2028' || c == '\u2029'

/-- Line boundaries of Python `str.splitlines()`. -/
def isPyLineBreak (c : Char) : Bool :=
  c == '\n' || c == '\r' || c == '\x0b' || c == '\x0c' ||
  c == '\x1c' || c == '\x1d' || c == '\x1e' || c == '\x85' ||
  c == '\u2028' || c == '\u2029'

/-- Embedding of Python `str.splitlines()` on character lists: every
line-boundary character ends a line, the pair carriage-return line-feed
counts as a single boundary, and a trailing boundary does not produce a
final empty line. -/
def pySplitlinesL : List Char → List (List Char)
  | [] => []
  | [c] => if isPyLineBreak c then [[]] else [[c]]
  | c :: c2 :: rest =>
    if c = '\r' ∧ c2 = '\n' then
      [] :: pySplitlinesL rest
    else if isPyLineBreak c then
      [] :: pySplitlinesL (c2 :: rest)
    else
      match pySplitlinesL (c2 :: rest) with
      | [] => [[c]]
      | h :: t => (c :: h) :: t

/-- Modelled from the spec's words for `lines`: the text split on newline
characters (plain splitting, keeping empty pieces). -/
def splitNl : List Char → List (List Char)
  | [] => [[]]
  | c :: rest =>
    if c = '\n' then [] :: splitNl rest
    else
      match splitNl rest with
      | [] => [[c]]
      | h :: t => (c :: h) :: t

/-- Does the character list end in a line feed (or is empty)?  This is the
exact discrepancy between plain newline splitting and Python
`str.splitlines()` on carriage-return-free text. -/
def trailNl : List Char → Bool
  | [] => true
  | [c] => c == '\n'
  | _ :: c2 :: rest => trailNl (c2 :: rest)

/-- Embedding of Python `str.strip()` on character lists. -/
def pyStripL (l : List Char) : List Char :=
  ((l.dropWhile isPySpace).reverse.dropWhile isPySpace).reverse

/-- Embedding of Python `str.strip()` on strings. -/
def pyStripS (s : String) : String :=
  String.mk (pyStripL s.data)

/-- Python string truthiness fallback `a or b`. -/
def pyOrS (a b : String) : String := if a = "" then b else a

/-- Python `returncode or 0` on an integer return code. -/
def pyOrInt (c : Int) : Int := if c = 0 then 0 else c

/-! ### Data model -/

/-- A command: a shell-interpreted string, or an argument vector executed
without shell interpretation (`Union[str, List[str]]` in the source). -/
inductive Cmd where
  | str (s : String)
  | argv (args : List String)
deriving DecidableEq

/-- Environment mappings are association lists of variable/value pairs;
a Python dict is one with no duplicate keys. -/
abbrev EnvMap := List (String × String)

/-- The keyword dictionary stored inside a Result for pipe replay.  The
source stores the dict literally; its possible keys are exactly `check`,
`timeout`, `cwd` and `env` (`_run_once` records all four, `_run_live`
records only `timeout` and `cwd`).  A field holding `none` models an
absent key. -/
structure Kwargs where
  check : Option Bool
  timeout : Option (Option ℚ)
  cwd : Option (Option String)
  env : Option (Option EnvMap)
deriving DecidableEq

/-- The result of running a shell command: captured stdout and stderr
text, the integer exit code, and the originating command plus recorded
keyword options used for pipe replay. -/
structure Result where
  stdout : String
  stderr : String
  code : Int
  command : Option Cmd
  kwargs : Kwargs
deriving DecidableEq

/-- `Result.ok`: true exactly when the command exited with code 0. -/
def Result.ok (r : Result) : Bool := r.code == 0

/-- `Result.lines`: stdout stripped of surrounding whitespace, split into
lines by Python `splitlines`, with the (exactly) empty lines removed
(`[line for line in self.stdout.strip().splitlines() if line]`). -/
def Result.lines (r : Result) : List String :=
  ((pySplitlinesL (pyStripL r.stdout.data)).map String.mk).filter
    (fun line => decide (line ≠ ""))

/-- Modelled from the spec's words: stripped stdout split on newlines,
empty lines removed, order preserved. -/
def linesSpec (s : String) : List String :=
  ((splitNl (pyStripL s.data)).map String.mk).filter
    (fun line => decide (line ≠ ""))

/-- The failure signal: carries the full Result, convenience copies of
its fields, and a message derived from stripped stderr with the
"Command failed with exit code N" fallback. -/
structure ZapError where
  result : Result
  stdout : String
  stderr : String
  code : Int
  msg : String
deriving DecidableEq

/-- Constructor of `ZapError` from a Result, translated from
`ZapError.__init__`. -/
def ZapError.ofResult (r : Result) : ZapError :=
  { result := r, stdout := r.stdout, stderr := r.stderr, code := r.code,
    msg := pyOrS (pyStripS r.stderr)
      ("Command failed with exit code " ++ toString r.code) }

/-! ### Environment overlay (`{**os.environ, **env}`) -/

/-- Insert one key/value pair into a Python dict modelled as an
association list: replace the value in place if the key is present,
append otherwise. -/
def pyUpdate (d : EnvMap) (kv : String × String) : EnvMap :=
  match d with
  | [] => [kv]
  | (k, v) :: rest =>
    if k = kv.1 then (k, kv.2) :: rest else (k, v) :: pyUpdate rest kv

/-- The dict literal `{**p, **e}`: a fresh dict receiving all items of
`p` and then all items of `e`, later insertions overriding earlier. -/
def pyDictMerge (p e : EnvMap) : EnvMap :=
  e.foldl pyUpdate (p.foldl pyUpdate [])

/-- The `full_env` computation shared by `_run_once` and `run_async`:
`None` when `env` is omitted, otherwise the parent environment overlaid
with the extra variables. -/
def computeFullEnv (pe : EnvMap) (env : Option EnvMap) : Option EnvMap :=
  env.map (fun e => pyDictMerge pe e)

/-- Dict lookup on an association list (first match). -/
def lookupEnv (k : String) : EnvMap → Option String
  | [] => none
  | (k1, v) :: rest => if k = k1 then some v else lookupEnv k rest

/-- First-some choice on optional values. -/
def orO (a b : Option String) : Option String :=
  match a with
  | some v => some v
  | none => b

/-! ### The execution oracle -/

/-- Which execution path spawned the child: blocking capture, blocking
live streaming, or the asyncio path. -/
inductive ExecKind where
  | capture
  | liveStream
  | asyncExec
deriving DecidableEq

/-- Everything the library hands to the operating system for one child
process: the command, the execution path, the per-attempt timeout, the
working directory, the effective stdin text and the computed environment
(`none` meaning the child inherits the parent environment unmodified). -/
structure ProcCall where
  command : Cmd
  kind : ExecKind
  timeout : Option ℚ
  cwd : Option String
  stdin : Option String
  fullEnv : Option EnvMap
deriving DecidableEq

/-- Outcome of one child process: a timeout, or completion with captured
stdout, stderr and exit code. -/
inductive Outcome where
  | timeout
  | finished (stdout stderr : String) (code : Int)
deriving DecidableEq

/-- The world oracle: what the operating system does for a given
invocation on a given attempt number. -/
abbrev World := ProcCall → Nat → Outcome

/-- Python truthiness filter on the optional stdin text: the live and
async paths only wire a stdin pipe when `stdin` is truthy
(`if stdin`), so an empty string behaves like an absent stdin there. -/
def truthyStdin (s : Option String) : Option String :=
  match s with
  | none => none
  | some str => if str = "" then none else some str

/-- The argument bundle of `run` (the `delay` option only spaces the
attempts in wall-clock time and has no further observable effect, so it
is not carried). -/
structure RunArgs where
  command : Cmd
  check : Bool
  timeout : Option ℚ
  cwd : Option String
  env : Option EnvMap
  stdin : Option String
  live : Bool
  retries : Nat
deriving DecidableEq

/-- The invocation `_run_once` performs for the given arguments: the
capture path passes `input=stdin` as given, while the live path wires a
stdin pipe only for truthy stdin. -/
def mkCall (pe : EnvMap) (a : RunArgs) : ProcCall :=
  if a.live then
    { command := a.command, kind := ExecKind.liveStream, timeout := a.timeout,
      cwd := a.cwd, stdin := truthyStdin a.stdin,
      fullEnv := computeFullEnv pe a.env }
  else
    { command := a.command, kind := ExecKind.capture, timeout := a.timeout,
      cwd := a.cwd, stdin := a.stdin, fullEnv := computeFullEnv pe a.env }

/-- The Result `_run_once` builds from a completed child.  `run` always
calls `_run_once` with `check=False`, which is the value recorded in the
capture-path kwargs; the live path records only `timeout` and `cwd`. -/
def mkResRun (a : RunArgs) (out err : String) (code : Int) : Result :=
  { stdout := out, stderr := err, code := code, command := some a.command,
    kwargs :=
      if a.live then
        { check := none, timeout := some a.timeout, cwd := some a.cwd,
          env := none }
      else
        { check := some false, timeout := some a.timeout, cwd := some a.cwd,
          env := some a.env } }

/-- One attempt (`_run_once` as invoked from `run`): either the Timeout
signal (`Except.error`) or a Result. -/
def runOnce (w : World) (pe : EnvMap) (a : RunArgs) (attempt : Nat) :
    Except Unit Result :=
  match w (mkCall pe a) attempt with
  | Outcome.timeout => Except.error ()
  | Outcome.finished out err code => Except.ok (mkResRun a out err code)

/-- The pending failure `run` records in `last_err` before retrying:
either a timeout message (built from the command and timeout) or a
`ZapError` wrapping the failing attempt's Result.  The source never
reads `last_err` back; it is threaded here for fidelity. -/
inductive PendErr where
  | timeoutPend (command : Cmd) (timeout : Option ℚ)
  | failPend (e : ZapError)

/-- What the retry loop hands to the `check` policy: the final Result
(annotated with the index of the terminal attempt; the loop performs
attempts `0, 1, ..., finalAttempt` and sleeps `finalAttempt` times), or
a re-raised Timeout. -/
inductive LoopOut where
  | result (r : Result) (finalAttempt : Nat)
  | timedOut (finalAttempt : Nat)
deriving DecidableEq

/-- The retry loop of `run` over attempts `0 .. retries`.  The first
numeric argument is the number of attempts still allowed after the
current one (`retries - attempt`), so `attempt < retries` is exactly
"remaining is a successor"; on the final attempt the break test and the
natural loop exit surface the Result identically, which the zero case
captures directly.  A timeout on the final attempt is re-raised. -/
def runLoop (w : World) (pe : EnvMap) (a : RunArgs) :
    Nat → Nat → Option PendErr → LoopOut
  | 0, attempt, _ =>
    match runOnce w pe a attempt with
    | Except.error _ => LoopOut.timedOut attempt
    | Except.ok r => LoopOut.result r attempt
  | remaining + 1, attempt, _ =>
    match runOnce w pe a attempt with
    | Except.error _ =>
      runLoop w pe a remaining (attempt + 1)
        (some (PendErr.timeoutPend a.command a.timeout))
    | Except.ok r =>
      if r.code = 0 ∨ a.retries = 0 then LoopOut.result r attempt
      else
        runLoop w pe a remaining (attempt + 1)
          (some (PendErr.failPend (ZapError.ofResult r)))

/-- Observable outcome of a public entry point: a returned Result, a
raised `ZapError`, or a propagated Timeout signal (each annotated with
the terminal attempt index). -/
inductive RunOut where
  | ret (r : Result) (finalAttempt : Nat)
  | err (e : ZapError) (finalAttempt : Nat)
  | timedOut (finalAttempt : Nat)
deriving DecidableEq

/-- The blocking entry point `run`: the retry loop followed by the
`check` policy (`if check and not result.ok: raise ZapError(result)`). -/
def run (w : World) (pe : EnvMap) (a : RunArgs) : RunOut :=
  match runLoop w pe a a.retries 0 none with
  | LoopOut.timedOut n => RunOut.timedOut n
  | LoopOut.result r n =>
    if a.check = true ∧ r.code ≠ 0 then RunOut.err (ZapError.ofResult r) n
    else RunOut.ret r n

/-- The invocation `run_async` performs (asyncio path; stdin is wired
only when truthy, mirroring `stdin.encode() if stdin else None`). -/
def mkCallAsync (pe : EnvMap) (c : Cmd) (t : Option ℚ) (cw : Option String)
    (ev : Option EnvMap) (s : Option String) : ProcCall :=
  { command := c, kind := ExecKind.asyncExec, timeout := t, cwd := cw,
    stdin := truthyStdin s, fullEnv := computeFullEnv pe ev }

/-- The Result `run_async` builds (`code = proc.returncode or 0`). -/
def mkResAsync (c : Cmd) (ch : Bool) (t : Option ℚ) (cw : Option String)
    (ev : Option EnvMap) (out err : String) (code : Int) : Result :=
  { stdout := out, stderr := err, code := pyOrInt code, command := some c,
    kwargs := { check := some ch, timeout := some t, cwd := some cw,
                env := some ev } }

/-- The concurrent entry point `run_async`: exactly one attempt, then
the `check` policy. -/
def run_async (w : World) (pe : EnvMap) (c : Cmd) (ch : Bool) (t : Option ℚ)
    (cw : Option String) (ev : Option EnvMap) (s : Option String) : RunOut :=
  match w (mkCallAsync pe c t cw ev s) 0 with
  | Outcome.timeout => RunOut.timedOut 0
  | Outcome.finished out err code =>
    if ch = true ∧ (mkResAsync c ch t cw ev out err code).code ≠ 0 then
      RunOut.err (ZapError.ofResult (mkResAsync c ch t cw ev out err code)) 0
    else RunOut.ret (mkResAsync c ch t cw ev out err code) 0

/-! ### Pipe operator -/

/-- The right operand of `Result.__or__`: a raw string command, a raw
argument-vector command, or another Result whose stored command and
options are reused. -/
inductive PipeArg where
  | rawStr (c : String)
  | rawList (args : List String)
  | res (r : Result)

/-- Arguments of the `run` call made by the pipe operator for a raw
command: `run(other, stdin=self.stdout, check=False)`, every other
option left at its default. -/
def pipeArgsRaw (c : Cmd) (inputText : String) : RunArgs :=
  { command := c, check := false, timeout := none, cwd := none, env := none,
    stdin := some inputText, live := false, retries := 0 }

/-- Arguments of the `run` call made by the pipe operator for a Result
operand: the operand's stored kwargs with `stdin` and `check`
overridden (`{**other._kwargs, "stdin": self.stdout, "check": False}`);
a key absent from the stored kwargs falls back to `run`'s default. -/
def pipeArgsRes (c : Cmd) (k : Kwargs) (inputText : String) : RunArgs :=
  { command := c, check := false, timeout := k.timeout.getD none,
    cwd := k.cwd.getD none, env := k.env.getD none,
    stdin := some inputText, live := false, retries := 0 }

/-- The pipe operator `Result.__or__`: feed this Result's stdout as
stdin to the next command.  A Result operand with no stored command
models the `run(None, ...)` type error as `none`.  The embedding is
pure, so the receiver is never mutated and the output Result is a fresh
value. -/
def Result.pipeInto (w : World) (pe : EnvMap) (self : Result)
    (other : PipeArg) : Option RunOut :=
  match other with
  | PipeArg.rawStr c =>
    some (run w pe (pipeArgsRaw (Cmd.str c) self.stdout))
  | PipeArg.rawList args =>
    some (run w pe (pipeArgsRaw (Cmd.argv args) self.stdout))
  | PipeArg.res s =>
    match s.command with
    | none => none
    | some c => some (run w pe (pipeArgsRes c s.kwargs self.stdout))

/-! ### Live stream multiplexer deadline gate -/

/-- The two child streams the multiplexer drains. -/
inductive StreamId where
  | stdoutS
  | stderrS
deriving DecidableEq

/-- One readiness event: a line read from a stream, or that stream's
end-of-file. -/
inductive LiveEvent where
  | line (s : StreamId) (content : String)
  | eof (s : StreamId)
deriving DecidableEq

/-- Multiplexer state: the open-stream counter and the accumulated
line buffers. -/
structure LiveState where
  openStreams : Nat
  stdoutLines : List String
  stderrLines : List String
deriving DecidableEq

/-- Process one readiness event: an end-of-file deregisters its stream,
a line is appended to the matching buffer (and mirrored, which the
embedding does not track). -/
def processEvent (st : LiveState) (e : LiveEvent) : LiveState :=
  match e with
  | LiveEvent.eof _ => { st with openStreams := st.openStreams - 1 }
  | LiveEvent.line StreamId.stdoutS c =>
    { st with stdoutLines := st.stdoutLines ++ [c] }
  | LiveEvent.line StreamId.stderrS c =>
    { st with stderrLines := st.stderrLines ++ [c] }

/-- The deadline test `timeout and (time.monotonic() - start) > timeout`
of `_run_live`: the elapsed-time comparison is only performed when the
timeout value is truthy, so a timeout of 0 (like `None`) never trips. -/
def deadlineHit (t : Option ℚ) (elapsed : ℚ) : Bool :=
  match t with
  | none => false
  | some x => if x = 0 then false else decide (elapsed > x)

/-- Result of running the multiplexer loop against a finite schedule of
iterations, each supplying the elapsed time observed at the top of the
iteration and the readiness events delivered by the selector. -/
inductive LiveOut where
  | timedOut
  | done (st : LiveState)
  | pending (st : LiveState)
deriving DecidableEq

/-- The multiplexer loop of `_run_live`: while streams remain open,
check the deadline, then service the selector's events.  A schedule
entry is consumed per iteration; an exhausted schedule with streams
still open is `pending` (the real loop would keep polling). -/
def runLiveLoop (t : Option ℚ) :
    List (ℚ × List LiveEvent) → LiveState → LiveOut
  | [], st =>
    if st.openStreams = 0 then LiveOut.done st else LiveOut.pending st
  | (elapsed, evs) :: rest, st =>
    if st.openStreams = 0 then LiveOut.done st
    else if deadlineHit t elapsed then LiveOut.timedOut
    else runLiveLoop t rest (evs.foldl processEvent st)

/-- Whether the multiplexer loop raised the Timeout signal. -/
def isTimedOutLive (o : LiveOut) : Bool :=
  match o with
  | LiveOut.timedOut => true
  | _ => false

/-! ### Scoped directory change -/

/-- Process-level ambient state: the current working directory plus
arbitrary further state the scoped body may act on. -/
structure ProcState (σ : Type) where
  cwd : String
  user : σ

/-- Embedding of `os.getcwd()`. -/
def getcwd {σ : Type} (s : ProcState σ) : String := s.cwd

/-- Embedding of `os.chdir(p)`. -/
def chdir {σ : Type} (p : String) (s : ProcState σ) : ProcState σ :=
  { s with cwd := p }

/-- The scoped directory-change helper `cd`: record the previous
directory, change into `path`, run the body (whose exceptional exit is
an `Except.error` value), and restore the previous directory on every
exit path (the `finally` clause). -/
def cd {σ ε α : Type} (path : String)
    (body : ProcState σ → Except ε α × ProcState σ) (s : ProcState σ) :
    Except ε α × ProcState σ :=
  let prev := getcwd s
  let s1 := chdir path s
  let out := body s1
  (out.1, chdir prev out.2)

/-- Shorthand for the continue condition of the retry loop at attempt
`i`: the attempt timed out, or it finished with a code that fails the
break test (`result.ok or not retries`). -/
def contAt (w : World) (pe : EnvMap) (a : RunArgs) (i : Nat) : Prop :=
  w (mkCall pe a) i = Outcome.timeout ∨
    ∃ out err c, w (mkCall pe a) i = Outcome.finished out err c ∧
      ¬(c = 0 ∨ a.retries = 0)

/-! ### Concrete worlds and argument bundles used by the witnesses -/

/-- A world in which every attempt fails with exit code 3. -/
def wFail3 : World := fun _ _ => Outcome.finished "partial" "boom" 3

/-- A world in which every attempt fails with exit code 1 and empty
stderr. -/
def wFail1 : World := fun _ _ => Outcome.finished "" "" 1

/-- A world in which every attempt times out. -/
def wTimeoutAll : World := fun _ _ => Outcome.timeout

/-- A world in which attempts 0 and 1 fail with exit code 1 and later
attempts succeed with stdout "ok". -/
def wFailTwice : World := fun _ n =>
  if n < 2 then Outcome.finished "" "nope" 1 else Outcome.finished "ok" "" 0

/-- A world in which every invocation finishes with its stdin echoed
back as stdout and exit code 5. -/
def wEcho5 : World := fun call _ =>
  Outcome.finished ((call.stdin).getD "") "" 5

/-- Arguments: string command, default options, retries 0, check on. -/
def aPlain : RunArgs :=
  { command := Cmd.str "false", check := true, timeout := none, cwd := none,
    env := none, stdin := none, live := false, retries := 0 }

/-- Arguments: retries 2, check on. -/
def aRetry2 : RunArgs :=
  { command := Cmd.str "flaky", check := true, timeout := none, cwd := none,
    env := none, stdin := none, live := false, retries := 2 }

/-- Arguments: retries 3, check on. -/
def aRetry3 : RunArgs :=
  { command := Cmd.str "flaky", check := true, timeout := none, cwd := none,
    env := none, stdin := none, live := false, retries := 3 }

/-- Arguments: retries 1, check off. -/
def aRetry1NoCheck : RunArgs :=
  { command := Cmd.str "slow", check := false, timeout := some 2, cwd := none,
    env := none, stdin := none, live := false, retries := 1 }

/-- A Result as produced by a previous capture-path run, used to
exercise the pipe operator. -/
def rPrev : Result :=
  { stdout := "hello world", stderr := "", code := 0,
    command := some (Cmd.str "echo hello world"),
    kwargs := { check := some false, timeout := none, cwd := none,
                env := none } }

/-! ### Field computation lemmas -/

theorem mkResRun_code (a : RunArgs) (out err : String) (code : Int) :
    (mkResRun a out err code).code = code := rfl

theorem pyOrInt_eq (c : Int) : pyOrInt c = c := by
  unfold pyOrInt
  split
  · omega
  · rfl

/-! ### Lemmas about the retry loop -/

/-- Every Result surfaced by the retry loop is the one `_run_once` built
from the finished outcome of the terminal attempt. -/
theorem runLoop_result_src (w : World) (pe : EnvMap) (a : RunArgs) :
    ∀ (remaining attempt : Nat) (le : Option PendErr) (r : Result) (n : Nat),
      runLoop w pe a remaining attempt le = LoopOut.result r n →
      ∃ out err c, w (mkCall pe a) n = Outcome.finished out err c ∧
        r = mkResRun a out err c := by
  intro remaining
  induction remaining with
  | zero =>
    intro attempt le r n h
    cases hw : w (mkCall pe a) attempt with
    | timeout => simp [runLoop, runOnce, hw] at h
    | finished out err c =>
      simp only [runLoop, runOnce, hw, LoopOut.result.injEq] at h
      obtain ⟨hr, hn⟩ := h
      exact ⟨out, err, c, by rw [← hn]; exact hw, hr.symm⟩
  | succ rem IH =>
    intro attempt le r n h
    cases hw : w (mkCall pe a) attempt with
    | timeout =>
      simp only [runLoop, runOnce, hw] at h
      exact IH _ _ _ _ h
    | finished out err c =>
      simp only [runLoop, runOnce, hw] at h
      by_cases hbr : (mkResRun a out err c).code = 0 ∨ a.retries = 0
      · rw [if_pos hbr] at h
        simp only [LoopOut.result.injEq] at h
        obtain ⟨hr, hn⟩ := h
        exact ⟨out, err, c, by rw [← hn]; exact hw, hr.symm⟩
      · rw [if_neg hbr] at h
        exact IH _ _ _ _ h

/-- If every attempt up to the final one keeps the loop going and the
final attempt times out, the loop re-raises the Timeout signal. -/
theorem runLoop_timeout_chain (w : World) (pe : EnvMap) (a : RunArgs) :
    ∀ (remaining attempt : Nat) (le : Option PendErr),
      (∀ i, attempt ≤ i → i < attempt + remaining → contAt w pe a i) →
      w (mkCall pe a) (attempt + remaining) = Outcome.timeout →
      runLoop w pe a remaining attempt le = LoopOut.timedOut (attempt + remaining) := by
  intro remaining
  induction remaining with
  | zero =>
    intro attempt le _ hfin
    simp only [Nat.add_zero] at hfin ⊢
    simp [runLoop, runOnce, hfin]
  | succ rem IH =>
    intro attempt le hcont hfin
    have h0 := hcont attempt (Nat.le_refl _) (by omega)
    have hshift : attempt + (rem + 1) = (attempt + 1) + rem := by omega
    rcases h0 with hto | ⟨o, e2, c, hw, hc⟩
    · simp only [runLoop, runOnce, hto]
      rw [hshift] at hfin ⊢
      exact IH (attempt + 1) _ (fun i hi1 hi2 => hcont i (by omega) (by omega)) hfin
    · simp only [runLoop, runOnce, hw]
      rw [if_neg (by rw [mkResRun_code]; exact hc)]
      rw [hshift] at hfin ⊢
      exact IH (attempt + 1) _ (fun i hi1 hi2 => hcont i (by omega) (by omega)) hfin

/-- If every attempt fails with a non-zero exit code and retries are
enabled, the loop exhausts all attempts and surfaces the final
attempt's Result. -/
theorem runLoop_allfail (w : World) (pe : EnvMap) (a : RunArgs) :
    ∀ (remaining attempt : Nat) (le : Option PendErr),
      a.retries ≠ 0 →
      (∀ i, attempt ≤ i → i ≤ attempt + remaining →
        ∃ out err c, w (mkCall pe a) i = Outcome.finished out err c ∧ c ≠ 0) →
      ∃ out err c,
        w (mkCall pe a) (attempt + remaining) = Outcome.finished out err c ∧
        c ≠ 0 ∧
        runLoop w pe a remaining attempt le =
          LoopOut.result (mkResRun a out err c) (attempt + remaining) := by
  intro remaining
  induction remaining with
  | zero =>
    intro attempt le _ hall
    obtain ⟨o, e2, c, hw, hc⟩ := hall attempt (Nat.le_refl _) (by omega)
    simp only [Nat.add_zero]
    exact ⟨o, e2, c, hw, hc, by simp [runLoop, runOnce, hw]⟩
  | succ rem IH =>
    intro attempt le hr hall
    obtain ⟨o, e2, c, hw, hc⟩ := hall attempt (Nat.le_refl _) (by omega)
    have hshift : attempt + (rem + 1) = (attempt + 1) + rem := by omega
    obtain ⟨o2, e3, c2, hw2, hc2, hloop⟩ :=
      IH (attempt + 1)
        (some (PendErr.failPend (ZapError.ofResult (mkResRun a o e2 c)))) hr
        (fun i hi1 hi2 => hall i (by omega) (by omega))
    refine ⟨o2, e3, c2, by rw [hshift]; exact hw2, hc2, ?_⟩
    simp only [runLoop, runOnce, hw]
    rw [if_neg (by rw [mkResRun_code]; rintro (h | h); exact hc h; exact hr h)]
    rw [hshift]
    exact hloop

/-- If the first `k` attempts fail with non-zero exit codes and attempt
`k` (within the budget) succeeds, the loop surfaces the success Result
of attempt `k`, discarding the pending failure. -/
theorem runLoop_succeed (w : World) (pe : EnvMap) (a : RunArgs) :
    ∀ (k remaining attempt : Nat) (le : Option PendErr),
      k ≤ remaining → remaining ≤ a.retries →
      (∀ i, attempt ≤ i → i < attempt + k →
        ∃ out err c, w (mkCall pe a) i = Outcome.finished out err c ∧ c ≠ 0) →
      ∀ out err, w (mkCall pe a) (attempt + k) = Outcome.finished out err 0 →
        runLoop w pe a remaining attempt le =
          LoopOut.result (mkResRun a out err 0) (attempt + k) := by
  intro k
  induction k with
  | zero =>
    intro remaining attempt le _ _ _ out err hw
    simp only [Nat.add_zero] at hw ⊢
    cases remaining with
    | zero => simp [runLoop, runOnce, hw]
    | succ rem =>
      simp only [runLoop, runOnce, hw]
      rw [if_pos (Or.inl (by rw [mkResRun_code]))]
  | succ kk IH =>
    intro remaining attempt le hk hrem hfail out err hw
    obtain ⟨rem, rfl⟩ : ∃ rem, remaining = rem + 1 := by
      cases remaining with
      | zero => omega
      | succ rr => exact ⟨rr, rfl⟩
    have hr0 : a.retries ≠ 0 := by omega
    obtain ⟨o, e2, c, hwa, hc⟩ := hfail attempt (Nat.le_refl _) (by omega)
    have hshift : attempt + (kk + 1) = (attempt + 1) + kk := by omega
    simp only [runLoop, runOnce, hwa]
    rw [if_neg (by rw [mkResRun_code]; rintro (h | h); exact hc h; exact hr0 h)]
    rw [hshift]
    exact IH rem (attempt + 1) _ (by omega) (by omega)
      (fun i hi1 hi2 => hfail i (by omega) (by omega)) out err
      (by rw [← hshift]; exact hw)

/-- The `check` policy applied to the loop's final Result. -/
theorem run_of_loop_result (w : World) (pe : EnvMap) (a : RunArgs)
    (r : Result) (n : Nat)
    (h : runLoop w pe a a.retries 0 none = LoopOut.result r n) :
    run w pe a =
      if a.check = true ∧ r.code ≠ 0 then RunOut.err (ZapError.ofResult r) n
      else RunOut.ret r n := by
  unfold run
  rw [h]

/-- A re-raised loop Timeout propagates out of `run` unchanged. -/
theorem run_of_loop_timedOut (w : World) (pe : EnvMap) (a : RunArgs) (n : Nat)
    (h : runLoop w pe a a.retries 0 none = LoopOut.timedOut n) :
    run w pe a = RunOut.timedOut n := by
  unfold run
  rw [h]

/-- With `retries = 0` a finished first attempt is surfaced by the loop
unchanged, after exactly one attempt and no sleep. -/
theorem run_single (w : World) (pe : EnvMap) (a : RunArgs)
    (out err : String) (code : Int) (h0 : a.retries = 0)
    (hw : w (mkCall pe a) 0 = Outcome.finished out err code) :
    runLoop w pe a a.retries 0 none = LoopOut.result (mkResRun a out err code) 0 := by
  rw [h0]
  simp [runLoop, runOnce, hw]

/-- The `check` policy of `run_async` applied to a finished child. -/
theorem run_async_finished (w : World) (pe : EnvMap) (c : Cmd) (ch : Bool)
    (t : Option ℚ) (cw : Option String) (ev : Option EnvMap)
    (s : Option String) (out err : String) (code : Int)
    (hw : w (mkCallAsync pe c t cw ev s) 0 = Outcome.finished out err code) :
    run_async w pe c ch t cw ev s =
      if ch = true ∧ (mkResAsync c ch t cw ev out err code).code ≠ 0 then
        RunOut.err (ZapError.ofResult (mkResAsync c ch t cw ev out err code)) 0
      else RunOut.ret (mkResAsync c ch t cw ev out err code) 0 := by
  unfold run_async
  rw [hw]

/-- A timed-out child propagates the Timeout signal out of `run_async`. -/
theorem run_async_timeout (w : World) (pe : EnvMap) (c : Cmd) (ch : Bool)
    (t : Option ℚ) (cw : Option String) (ev : Option EnvMap)
    (s : Option String)
    (hw : w (mkCallAsync pe c t cw ev s) 0 = Outcome.timeout) :
    run_async w pe c ch t cw ev s = RunOut.timedOut 0 := by
  unfold run_async
  rw [hw]

/-- With `check = false`, `run` never raises the failure signal. -/
theorem run_noCheck_ne_err (w : World) (pe : EnvMap) (a : RunArgs)
    (hch : a.check = false) :
    ∀ (e : ZapError) (n : Nat), run w pe a ≠ RunOut.err e n := by
  intro e n h
  cases hq : runLoop w pe a a.retries 0 none with
  | timedOut m =>
    rw [run_of_loop_timedOut w pe a m hq] at h
    simp at h
  | result r m =>
    rw [run_of_loop_result w pe a r m hq] at h
    rw [if_neg (by rintro ⟨h1, _⟩; rw [hch] at h1; exact Bool.false_ne_true h1)] at h
    simp at h

/-! ### Lemmas about the environment overlay -/

theorem lookupEnv_pyUpdate (k : String) (d : EnvMap) (k1 v1 : String) :
    lookupEnv k (pyUpdate d (k1, v1)) =
      if k = k1 then some v1 else lookupEnv k d := by
  induction d with
  | nil => rfl
  | cons kv rest IH =>
    obtain ⟨k2, v2⟩ := kv
    simp only [pyUpdate]
    by_cases h21 : k2 = k1
    · subst h21
      simp only [if_pos rfl, lookupEnv]
      by_cases hk : k = k2 <;> simp [hk]
    · simp only [if_neg h21, lookupEnv, IH]
      by_cases hk : k = k2
      · subst hk
        simp [h21]
      · simp [hk]

theorem lookupEnv_append (k : String) (x y : EnvMap) :
    lookupEnv k (x ++ y) = orO (lookupEnv k x) (lookupEnv k y) := by
  induction x with
  | nil => simp [lookupEnv, orO]
  | cons kv rest IH =>
    obtain ⟨k1, v1⟩ := kv
    simp only [List.cons_append, lookupEnv]
    by_cases hk : k = k1
    · simp [hk, orO]
    · simp [hk, IH]

theorem lookupEnv_foldl (k : String) :
    ∀ (l : List (String × String)) (d : EnvMap),
      lookupEnv k (l.foldl pyUpdate d) =
        orO (lookupEnv k l.reverse) (lookupEnv k d) := by
  intro l
  induction l with
  | nil => intro d; simp [lookupEnv, orO]
  | cons kv t IH =>
    intro d
    obtain ⟨k1, v1⟩ := kv
    rw [List.foldl_cons, IH, List.reverse_cons, lookupEnv_append,
      lookupEnv_pyUpdate]
    cases lookupEnv k t.reverse with
    | some v => simp [orO]
    | none =>
      by_cases hk : k = k1 <;> simp [hk, orO, lookupEnv]

theorem lookupEnv_not_mem (k : String) :
    ∀ l : EnvMap, k ∉ l.map Prod.fst → lookupEnv k l = none := by
  intro l
  induction l with
  | nil => intro _; rfl
  | cons kv t IH =>
    obtain ⟨k1, v1⟩ := kv
    intro hk
    simp only [List.map_cons, List.mem_cons] at hk
    push_neg at hk
    simp [lookupEnv, hk.1, IH hk.2]

theorem lookupEnv_reverse (k : String) :
    ∀ l : EnvMap, (l.map Prod.fst).Nodup →
      lookupEnv k l.reverse = lookupEnv k l := by
  intro l
  induction l with
  | nil => intro _; rfl
  | cons kv t IH =>
    obtain ⟨k1, v1⟩ := kv
    intro hnd
    simp only [List.map_cons, List.nodup_cons] at hnd
    rw [List.reverse_cons, lookupEnv_append, IH hnd.2]
    by_cases hk : k = k1
    · subst hk
      rw [lookupEnv_not_mem k t hnd.1]
      simp [orO, lookupEnv]
    · cases hq : lookupEnv k t <;> simp [orO, lookupEnv, hk, hq]

/-- Lookup in the overlay `{**p, **e}`: the extra variables win, the
inherited environment fills the rest. -/
theorem lookupEnv_pyDictMerge (k : String) (p e : EnvMap)
    (hp : (p.map Prod.fst).Nodup) (he : (e.map Prod.fst).Nodup) :
    lookupEnv k (pyDictMerge p e) = orO (lookupEnv k e) (lookupEnv k p) := by
  unfold pyDictMerge
  rw [lookupEnv_foldl, lookupEnv_foldl, lookupEnv_reverse k e he,
    lookupEnv_reverse k p hp]
  cases lookupEnv k e <;> cases lookupEnv k p <;> simp [orO, lookupEnv]

/-- C6. The child environment is an overlay: with an `env` mapping the
child receives the full inherited environment with the extra variables
merged over it, and with `env` omitted no overlay is computed and the
child inherits the parent environment unmodified (`full_env = None`);
both `run`'s attempts (via `mkCall`) and `run_async` (via `mkCallAsync`)
use exactly this computation. -/
theorem spec_C6 (pe : EnvMap) (k : String) :
    computeFullEnv pe none = none ∧
    (∀ e : EnvMap, (pe.map Prod.fst).Nodup → (e.map Prod.fst).Nodup →
      ∃ m, computeFullEnv pe (some e) = some m ∧
        lookupEnv k m = orO (lookupEnv k e) (lookupEnv k pe)) ∧
    (∀ a : RunArgs, (mkCall pe a).fullEnv = computeFullEnv pe a.env) ∧
    (∀ (c : Cmd) (t : Option ℚ) (cw : Option String) (ev : Option EnvMap)
        (s : Option String),
      (mkCallAsync pe c t cw ev s).fullEnv = computeFullEnv pe ev) := by
  refine ⟨rfl, ?_, ?_, fun c t cw ev s => rfl⟩
  · intro e hp he
    exact ⟨pyDictMerge pe e, rfl, lookupEnv_pyDictMerge k pe e hp he⟩
  · intro a
    unfold mkCall
    split <;> rfl

/-- Witness for C6 on concrete environments with an overridden key. -/
theorem spec_C6_witness :
    ∃ m, computeFullEnv [("A", "1"), ("B", "2")] (some [("B", "9"), ("C", "3")]) =
        some m ∧
      lookupEnv "B" m =
        orO (lookupEnv "B" [("B", "9"), ("C", "3")])
          (lookupEnv "B" [("A", "1"), ("B", "2")]) :=
  (spec_C6 [("A", "1"), ("B", "2")] "B").2.1 [("B", "9"), ("C", "3")]
    (by decide) (by decide)

/-! ### The scoped directory change -/

/-- C8. The scoped directory-change helper `cd` changes the process's
own ambient working directory to `path` for the duration of the scope
(the body observes `getcwd = path`) and restores the previous working
directory on every exit path, including when the scoped body raises
(returns an `Except.error`). -/
theorem spec_C8 (σ ε α : Type) (path : String)
    (body : ProcState σ → Except ε α × ProcState σ) (s : ProcState σ) :
    (cd path body s).2.cwd = s.cwd ∧
    (cd path body s).1 = (body (chdir path s)).1 ∧
    getcwd (chdir path s) = path ∧
    (∀ e : ε, (body (chdir path s)).1 = Except.error e →
      (cd path body s).1 = Except.error e ∧ (cd path body s).2.cwd = s.cwd) := by
  refine ⟨rfl, rfl, rfl, ?_⟩
  intro e he
  exact ⟨he, rfl⟩

/-- Witness for C8 with a body that raises: the error propagates and
the directory is restored. -/
theorem spec_C8_witness :
    (cd "/tmp" (fun st : ProcState Unit => ((Except.error 7 : Except Nat Unit), st))
      { cwd := "/home", user := () }).1 = Except.error 7 ∧
    (cd "/tmp" (fun st : ProcState Unit => ((Except.error 7 : Except Nat Unit), st))
      { cwd := "/home", user := () }).2.cwd = "/home" :=
  (spec_C8 Unit Nat Unit "/tmp"
    (fun st => (Except.error 7, st)) { cwd := "/home", user := () }).2.2.2 7 rfl

/-! ### The live multiplexer deadline gate -/

/-- C9. In the live-streaming path a configured timeout of 0 disables
the deadline entirely: the multiplexer loop never raises the Timeout
signal for any schedule of elapsed times and events, because the
elapsed-time check is gated on the truthiness of the timeout value. -/
theorem spec_C9 (sched : List (ℚ × List LiveEvent)) (st : LiveState) :
    isTimedOutLive (runLiveLoop (some 0) sched st) = false := by
  induction sched generalizing st with
  | nil =>
    show isTimedOutLive
      (if st.openStreams = 0 then LiveOut.done st else LiveOut.pending st) = false
    split <;> rfl
  | cons entry rest IH =>
    obtain ⟨elapsed, evs⟩ := entry
    have hd : deadlineHit (some 0) elapsed = false := by
      show (if (0 : ℚ) = 0 then false else decide (elapsed > 0)) = false
      rw [if_pos rfl]
    show isTimedOutLive
      (if st.openStreams = 0 then LiveOut.done st
       else if deadlineHit (some 0) elapsed then LiveOut.timedOut
       else runLiveLoop (some 0) rest (evs.foldl processEvent st)) = false
    rw [hd]
    by_cases h0 : st.openStreams = 0
    · rw [if_pos h0]; rfl
    · rw [if_neg h0, if_neg (by simp)]
      exact IH _

/-! ### Lemmas about the string primitives -/

theorem pySplit_cons2 (c c2 : Char) (rest : List Char) :
    pySplitlinesL (c :: c2 :: rest) =
      if c = '\r' ∧ c2 = '\n' then [] :: pySplitlinesL rest
      else if isPyLineBreak c then [] :: pySplitlinesL (c2 :: rest)
      else
        match pySplitlinesL (c2 :: rest) with
        | [] => [[c]]
        | h :: t => (c :: h) :: t := rfl

theorem splitNl_cons (c : Char) (rest : List Char) :
    splitNl (c :: rest) =
      if c = '\n' then [] :: splitNl rest
      else
        match splitNl rest with
        | [] => [[c]]
        | h :: t => (c :: h) :: t := rfl

theorem pySplit_ne_nil (c : Char) (rest : List Char) :
    pySplitlinesL (c :: rest) ≠ [] := by
  cases rest with
  | nil =>
    show (if isPyLineBreak c then [[]] else [[c]]) ≠ []
    split <;> simp
  | cons c2 rest2 =>
    rw [pySplit_cons2]
    split
    · simp
    · split
      · simp
      · cases hq : pySplitlinesL (c2 :: rest2) <;> simp

theorem notBreak_ne_lf {c : Char} (hb : isPyLineBreak c = false) : c ≠ '\n' := by
  intro hx; subst hx; simp [isPyLineBreak] at hb

theorem notBreak_ne_cr {c : Char} (hb : isPyLineBreak c = false) : c ≠ '\r' := by
  intro hx; subst hx; simp [isPyLineBreak] at hb

/-- On carriage-return-free text, plain newline splitting agrees with
Python `splitlines` up to one trailing empty line when the text ends in
a line feed (or is empty). -/
theorem splitNl_eq_pySplit :
    ∀ l : List Char, (∀ c ∈ l, isPyLineBreak c = true → c = '\n') →
      splitNl l = pySplitlinesL l ++ (if trailNl l then [[]] else []) := by
  intro l
  induction l with
  | nil => intro _; rfl
  | cons c rest IH =>
    intro h
    have hc_or : isPyLineBreak c = false ∨ c = '\n' := by
      cases hcb : isPyLineBreak c
      · exact Or.inl rfl
      · exact Or.inr (h c (List.mem_cons_self c rest) hcb)
    cases rest with
    | nil =>
      rcases hc_or with hb | hn
      · have hc := notBreak_ne_lf hb
        simp [splitNl, pySplitlinesL, trailNl, hb, hc]
      · subst hn; rfl
    | cons c2 rest2 =>
      have htl : ∀ x ∈ c2 :: rest2, isPyLineBreak x = true → x = '\n' :=
        fun x hx hbx => h x (List.mem_cons_of_mem c hx) hbx
      have IH2 := IH htl
      have htr : trailNl (c :: c2 :: rest2) = trailNl (c2 :: rest2) := rfl
      rcases hc_or with hb | hn
      · have hc := notBreak_ne_lf hb
        have hcr : ¬(c = '\r' ∧ c2 = '\n') := fun hand => notBreak_ne_cr hb hand.1
        obtain ⟨h1, t1, hps⟩ : ∃ h1 t1, pySplitlinesL (c2 :: rest2) = h1 :: t1 := by
          cases hq : pySplitlinesL (c2 :: rest2) with
          | nil => exact absurd hq (pySplit_ne_nil c2 rest2)
          | cons x y => exact ⟨x, y, rfl⟩
        rw [splitNl_cons, if_neg hc, pySplit_cons2, if_neg hcr,
          if_neg (by simp [hb]), IH2, hps, htr]
        cases htr2 : trailNl (c2 :: rest2) <;> simp
      · subst hn
        have hcr : ¬(('\n' : Char) = '\r' ∧ c2 = '\n') := by
          rintro ⟨h1, _⟩; exact absurd h1 (by decide)
        rw [splitNl_cons, if_pos rfl, pySplit_cons2, if_neg hcr,
          if_pos (by decide), IH2, htr]
        simp

theorem mem_dropWhile (p : Char → Bool) :
    ∀ (l : List Char) (c : Char), c ∈ l.dropWhile p → c ∈ l := by
  intro l
  induction l with
  | nil => intro c hc; simp [List.dropWhile] at hc
  | cons x xs IH =>
    intro c hc
    rw [List.dropWhile_cons] at hc
    by_cases hx : p x = true
    · rw [if_pos hx] at hc; exact List.mem_cons_of_mem x (IH c hc)
    · rw [if_neg hx] at hc; exact hc

theorem mem_pyStripL (l : List Char) (c : Char) (hc : c ∈ pyStripL l) : c ∈ l := by
  unfold pyStripL at hc
  rw [List.mem_reverse] at hc
  have h1 := mem_dropWhile isPySpace _ c hc
  rw [List.mem_reverse] at h1
  exact mem_dropWhile isPySpace l c h1

theorem dropWhile_cons_false {p : Char → Bool} {c : Char} (l : List Char)
    (hc : p c = false) : (c :: l).dropWhile p = c :: l := by
  rw [List.dropWhile_cons, if_neg (by simp [hc])]

/-- Stripping is the identity on text whose first and last characters
are not whitespace. -/
theorem pyStripL_id (l : List Char)
    (h1 : ∀ c, l.head? = some c → isPySpace c = false)
    (h2 : ∀ c, l.getLast? = some c → isPySpace c = false) :
    pyStripL l = l := by
  cases l with
  | nil => rfl
  | cons c rest =>
    have hc : isPySpace c = false := h1 c rfl
    unfold pyStripL
    rw [dropWhile_cons_false _ hc]
    cases hq : (c :: rest).reverse with
    | nil => simp at hq
    | cons d ds =>
      have hd : (c :: rest).getLast? = some d := by
        rw [← List.head?_reverse, hq]; rfl
      rw [dropWhile_cons_false _ (h2 d hd), ← hq, List.reverse_reverse]

theorem mk_ne_empty (l : List Char) (h : l ≠ []) : String.mk l ≠ "" := by
  intro he
  exact h (by simpa using congrArg String.data he)

/-- Splitting text that starts with a boundary-free prefix followed by a
line feed peels off that prefix as the first line. -/
theorem pySplit_append_nl :
    ∀ (a : List Char), (∀ c ∈ a, isPyLineBreak c = false) →
      ∀ rest : List Char, pySplitlinesL (a ++ '\n' :: rest) = a :: pySplitlinesL rest := by
  intro a
  induction a with
  | nil =>
    intro _ rest
    cases rest with
    | nil => rfl
    | cons r1 r2 =>
      rw [List.nil_append, pySplit_cons2,
        if_neg (by rintro ⟨h1, _⟩; exact absurd h1 (by decide)),
        if_pos (by decide)]
  | cons c a2 IH =>
    intro hA rest
    have hc : isPyLineBreak c = false := hA c (List.mem_cons_self c a2)
    have IH2 := IH (fun x hx => hA x (List.mem_cons_of_mem c hx)) rest
    cases a2 with
    | nil =>
      rw [List.nil_append] at IH2
      simp only [List.cons_append, List.nil_append]
      rw [pySplit_cons2, if_neg (fun hand => notBreak_ne_cr hc hand.1),
        if_neg (by simp [hc]), IH2]
    | cons d a3 =>
      simp only [List.cons_append] at IH2 ⊢
      rw [pySplit_cons2, if_neg (fun hand => notBreak_ne_cr hc hand.1),
        if_neg (by simp [hc]), IH2]

/-- Splitting nonempty boundary-free text yields that text as the single
line. -/
theorem pySplit_noBreak :
    ∀ b : List Char, (∀ c ∈ b, isPyLineBreak c = false) → b ≠ [] →
      pySplitlinesL b = [b] := by
  intro b
  induction b with
  | nil => intro _ hne; exact absurd rfl hne
  | cons c b2 IH =>
    intro hB _
    have hc : isPyLineBreak c = false := hB c (List.mem_cons_self c b2)
    cases b2 with
    | nil =>
      show (if isPyLineBreak c then [[]] else [[c]]) = [[c]]
      rw [if_neg (by simp [hc])]
    | cons d b3 =>
      have IH2 := IH (fun x hx => hB x (List.mem_cons_of_mem c hx)) (by simp)
      rw [pySplit_cons2, if_neg (fun hand => notBreak_ne_cr hc hand.1),
        if_neg (by simp [hc]), IH2]

/-- C5. `lines` equals the captured stdout stripped of surrounding
whitespace overall, split on newlines, with all empty lines removed and
order preserved: on carriage-return-free stdout the source's
`strip().splitlines()` pipeline agrees with the spec's plain newline
splitting once empty lines are dropped, and stdout `"a\n\nb\n"` yields
exactly `["a", "b"]`. -/
theorem spec_C5 (r : Result) :
    ((∀ c ∈ r.stdout.data, isPyLineBreak c = true → c = '\n') →
      Result.lines r = linesSpec r.stdout) ∧
    (∀ (err : String) (code : Int) (cm : Option Cmd) (kw : Kwargs),
      Result.lines { stdout := "a\n\nb\n", stderr := err, code := code,
                     command := cm, kwargs := kw } = ["a", "b"]) := by
  constructor
  · intro h
    have hs : ∀ c ∈ pyStripL r.stdout.data, isPyLineBreak c = true → c = '\n' :=
      fun c hc => h c (mem_pyStripL _ c hc)
    unfold Result.lines linesSpec
    rw [splitNl_eq_pySplit _ hs]
    cases htr : trailNl (pyStripL r.stdout.data) <;> simp
  · intro err code cm kw
    rfl

/-- Witness for C5 at the concrete Result whose stdout is "a\n\nb\n". -/
theorem spec_C5_witness :
    Result.lines { stdout := "a\n\nb\n", stderr := "", code := 0,
                   command := none,
                   kwargs := { check := none, timeout := none, cwd := none,
                               env := none } } =
      linesSpec "a\n\nb\n" :=
  (spec_C5 { stdout := "a\n\nb\n", stderr := "", code := 0, command := none,
             kwargs := { check := none, timeout := none, cwd := none,
                         env := none } }).1 (by decide)

/-- C10. `lines` removes only lines that are exactly empty: a
whitespace-only interior line between non-empty lines survives in
`lines`, because the overall strip touches only the ends and the filter
drops only the empty string. -/
theorem spec_C10 (a wsp b : List Char) (err : String) (code : Int)
    (cm : Option Cmd) (kw : Kwargs)
    (ha : a ≠ []) (hb : b ≠ []) (hw : wsp ≠ [])
    (haS : ∀ c ∈ a, isPySpace c = false)
    (haB : ∀ c ∈ a, isPyLineBreak c = false)
    (hbS : ∀ c ∈ b, isPySpace c = false)
    (hbB : ∀ c ∈ b, isPyLineBreak c = false)
    (hwS : ∀ c ∈ wsp, isPySpace c = true)
    (hwB : ∀ c ∈ wsp, isPyLineBreak c = false) :
    Result.lines { stdout := String.mk (a ++ '\n' :: (wsp ++ '\n' :: b)),
                   stderr := err, code := code, command := cm, kwargs := kw } =
      [String.mk a, String.mk wsp, String.mk b] := by
  obtain ⟨c0, a2, rfl⟩ : ∃ c0 a2, a = c0 :: a2 := by
    cases a with
    | nil => exact absurd rfl ha
    | cons x y => exact ⟨x, y, rfl⟩
  obtain ⟨d0, b2, rfl⟩ : ∃ d0 b2, b = d0 :: b2 := by
    cases b with
    | nil => exact absurd rfl hb
    | cons x y => exact ⟨x, y, rfl⟩
  have h1 : ∀ c, ((c0 :: a2) ++ '\n' :: (wsp ++ '\n' :: (d0 :: b2))).head? = some c →
      isPySpace c = false := by
    intro c hc
    rw [List.cons_append] at hc
    simp only [List.head?_cons, Option.some.injEq] at hc
    subst hc
    exact haS c0 (List.mem_cons_self c0 a2)
  have h2 : ∀ c, ((c0 :: a2) ++ '\n' :: (wsp ++ '\n' :: (d0 :: b2))).getLast? = some c →
      isPySpace c = false := by
    intro c hc
    rw [List.getLast?_append_cons] at hc
    rw [show ('\n' :: (wsp ++ '\n' :: (d0 :: b2))) =
        ('\n' :: wsp) ++ '\n' :: (d0 :: b2) from by simp [List.cons_append]] at hc
    rw [List.getLast?_append_cons] at hc
    rw [show ('\n' :: d0 :: b2) = ['\n'] ++ d0 :: b2 from rfl] at hc
    rw [List.getLast?_append_cons] at hc
    have hmem : c ∈ d0 :: b2 := by
      rw [List.getLast?_eq_getLast_of_ne_nil (by simp)] at hc
      have hcc : (d0 :: b2).getLast (by simp) = c := by
        injection hc
      rw [← hcc]
      exact List.getLast_mem _
    exact hbS c hmem
  show (((pySplitlinesL (pyStripL ((c0 :: a2) ++ '\n' :: (wsp ++ '\n' :: (d0 :: b2))))).map
      String.mk).filter (fun line => decide (line ≠ ""))) = _
  rw [pyStripL_id _ h1 h2, pySplit_append_nl _ haB, pySplit_append_nl _ hwB,
    pySplit_noBreak _ hbB hb]
  simp [List.filter_cons, mk_ne_empty _ ha, mk_ne_empty _ hw, mk_ne_empty _ hb]

/-- Witness for C10: stdout "x" newline space newline "y" keeps the
whitespace-only middle line. -/
theorem spec_C10_witness :
    Result.lines { stdout := String.mk (['x'] ++ '\n' :: ([' '] ++ '\n' :: ['y'])),
                   stderr := "", code := 0, command := none,
                   kwargs := { check := none, timeout := none, cwd := none,
                               env := none } } =
      [String.mk ['x'], String.mk [' '], String.mk ['y']] :=
  spec_C10 ['x'] [' '] ['y'] "" 0 none
    { check := none, timeout := none, cwd := none, env := none }
    (by decide) (by decide) (by decide) (by decide) (by decide) (by decide)
    (by decide) (by decide) (by decide)

/-! ### The check policy (C1) -/

/-- C1. `run` and `run_async` raise the failure signal exactly when
`check` is true and the final Result's exit code is non-zero, the
carried code equals the process exit code, `check = false` returns the
failing Result instead, and a command exiting with code 0 yields an ok
Result with no failure raised regardless of `check`. -/
theorem spec_C1 (w : World) (pe : EnvMap) :
    (∀ (a : RunArgs) (r : Result) (n : Nat),
      runLoop w pe a a.retries 0 none = LoopOut.result r n →
      ((a.check = true ∧ r.code ≠ 0) →
        run w pe a = RunOut.err (ZapError.ofResult r) n ∧
        (ZapError.ofResult r).code = r.code) ∧
      (a.check = false → run w pe a = RunOut.ret r n) ∧
      (r.code = 0 → run w pe a = RunOut.ret r n ∧ r.ok = true)) ∧
    (∀ (a : RunArgs) (e : ZapError) (n : Nat),
      run w pe a = RunOut.err e n →
      a.check = true ∧ e.result.code ≠ 0 ∧ e.code = e.result.code) ∧
    (∀ (a : RunArgs) (out err : String),
      w (mkCall pe a) 0 = Outcome.finished out err 0 →
      run w pe a = RunOut.ret (mkResRun a out err 0) 0 ∧
      (mkResRun a out err 0).ok = true) ∧
    (∀ (c : Cmd) (ch : Bool) (t : Option ℚ) (cw : Option String)
        (ev : Option EnvMap) (s : Option String) (out err : String) (code : Int),
      w (mkCallAsync pe c t cw ev s) 0 = Outcome.finished out err code →
      ((ch = true ∧ code ≠ 0) →
        run_async w pe c ch t cw ev s =
          RunOut.err (ZapError.ofResult (mkResAsync c ch t cw ev out err code)) 0 ∧
        (ZapError.ofResult (mkResAsync c ch t cw ev out err code)).code = code) ∧
      (ch = false →
        run_async w pe c ch t cw ev s =
          RunOut.ret (mkResAsync c ch t cw ev out err code) 0) ∧
      (code = 0 →
        run_async w pe c ch t cw ev s =
          RunOut.ret (mkResAsync c ch t cw ev out err code) 0 ∧
        (mkResAsync c ch t cw ev out err code).ok = true)) ∧
    (∀ (c : Cmd) (ch : Bool) (t : Option ℚ) (cw : Option String)
        (ev : Option EnvMap) (s : Option String) (e : ZapError) (n : Nat),
      run_async w pe c ch t cw ev s = RunOut.err e n →
      ch = true ∧ e.result.code ≠ 0) := by
  refine ⟨?_, ?_, ?_, ?_, ?_⟩
  · intro a r n h
    refine ⟨?_, ?_, ?_⟩
    · intro hc
      exact ⟨by rw [run_of_loop_result w pe a r n h, if_pos hc], rfl⟩
    · intro hch
      rw [run_of_loop_result w pe a r n h,
        if_neg (by rintro ⟨h1, _⟩; rw [hch] at h1; exact Bool.false_ne_true h1)]
    · intro hz
      refine ⟨?_, ?_⟩
      · rw [run_of_loop_result w pe a r n h,
          if_neg (by rintro ⟨_, h2⟩; exact h2 hz)]
      · simp [Result.ok, hz]
  · intro a e n h
    cases hq : runLoop w pe a a.retries 0 none with
    | timedOut m =>
      rw [run_of_loop_timedOut w pe a m hq] at h
      simp at h
    | result r m =>
      rw [run_of_loop_result w pe a r m hq] at h
      by_cases hc : a.check = true ∧ r.code ≠ 0
      · rw [if_pos hc] at h
        simp only [RunOut.err.injEq] at h
        obtain ⟨he, _⟩ := h
        refine ⟨hc.1, ?_, ?_⟩
        · rw [← he]; exact hc.2
        · rw [← he]; rfl
      · rw [if_neg hc] at h
        simp at h
  · intro a out err hw
    have hloop := runLoop_succeed w pe a 0 a.retries 0 none (Nat.zero_le _)
      (Nat.le_refl _) (fun i _ h2 => absurd h2 (by omega)) out err
      (by simpa using hw)
    simp only [Nat.add_zero] at hloop
    refine ⟨?_, ?_⟩
    · rw [run_of_loop_result w pe a _ _ hloop,
        if_neg (by rintro ⟨_, h2⟩; exact h2 (by rw [mkResRun_code]))]
    · simp [Result.ok, mkResRun_code]
  · intro c ch t cw ev s out err code hw
    have hcode : (mkResAsync c ch t cw ev out err code).code = code := by
      show pyOrInt code = code
      exact pyOrInt_eq code
    refine ⟨?_, ?_, ?_⟩
    · rintro ⟨hch, hcz⟩
      constructor
      · rw [run_async_finished w pe c ch t cw ev s out err code hw,
          if_pos ⟨hch, by rw [hcode]; exact hcz⟩]
      · show (mkResAsync c ch t cw ev out err code).code = code
        exact hcode
    · intro hch
      rw [run_async_finished w pe c ch t cw ev s out err code hw,
        if_neg (by rintro ⟨h1, _⟩; rw [hch] at h1; exact Bool.false_ne_true h1)]
    · intro hz
      constructor
      · rw [run_async_finished w pe c ch t cw ev s out err code hw,
          if_neg (by rintro ⟨_, h2⟩; exact h2 (by rw [hcode, hz]))]
      · subst hz
        simp [Result.ok, mkResAsync, pyOrInt]
  · intro c ch t cw ev s e n h
    cases hw : w (mkCallAsync pe c t cw ev s) 0 with
    | timeout =>
      rw [run_async_timeout w pe c ch t cw ev s hw] at h
      simp at h
    | finished out err code =>
      rw [run_async_finished w pe c ch t cw ev s out err code hw] at h
      by_cases hc : ch = true ∧ (mkResAsync c ch t cw ev out err code).code ≠ 0
      · rw [if_pos hc] at h
        simp only [RunOut.err.injEq] at h
        obtain ⟨he, _⟩ := h
        exact ⟨hc.1, by rw [← he]; exact hc.2⟩
      · rw [if_neg hc] at h
        simp at h

/-- Witness for C1: a single failing attempt with `check = true` raises
the failure signal carrying that attempt's Result. -/
theorem spec_C1_witness :
    run wFail3 [] aPlain =
      RunOut.err (ZapError.ofResult (mkResRun aPlain "partial" "boom" 3)) 0 :=
  (((spec_C1 wFail3 []).1 aPlain (mkResRun aPlain "partial" "boom" 3) 0 rfl).1
    ⟨rfl, by decide⟩).1

/-! ### The retry budget (C2) -/

/-- C2. `run` performs attempts numbered `0 .. retries` inclusive: with
`retries = 2` an always-failing command is attempted exactly 3 times
(terminal attempt index 2) and the failure then surfaces; a command
failing on the first `k` attempts and succeeding at attempt `k` within
the budget returns that success Result, discarding the pending failure;
and `retries = 0` makes exactly one attempt with no sleep and no loop
(terminal attempt index 0), surfacing a failing attempt's Result
unchanged. -/
theorem spec_C2 (w : World) (pe : EnvMap) (a : RunArgs) :
    (a.retries = 2 → a.check = true →
      (∀ i : Nat, ∃ out err c,
        w (mkCall pe a) i = Outcome.finished out err c ∧ c ≠ 0) →
      ∃ out err c, w (mkCall pe a) 2 = Outcome.finished out err c ∧ c ≠ 0 ∧
        runLoop w pe a a.retries 0 none =
          LoopOut.result (mkResRun a out err c) 2 ∧
        run w pe a = RunOut.err (ZapError.ofResult (mkResRun a out err c)) 2) ∧
    (∀ k, k ≤ a.retries →
      (∀ i, i < k → ∃ out err c,
        w (mkCall pe a) i = Outcome.finished out err c ∧ c ≠ 0) →
      ∀ out err, w (mkCall pe a) k = Outcome.finished out err 0 →
        run w pe a = RunOut.ret (mkResRun a out err 0) k) ∧
    (a.retries = 0 →
      (∀ out err c, w (mkCall pe a) 0 = Outcome.finished out err c →
        runLoop w pe a a.retries 0 none =
          LoopOut.result (mkResRun a out err c) 0) ∧
      (a.check = false →
        ∀ out err c, w (mkCall pe a) 0 = Outcome.finished out err c →
          run w pe a = RunOut.ret (mkResRun a out err c) 0)) := by
  refine ⟨?_, ?_, ?_⟩
  · intro h2 hch hall
    have hr0 : a.retries ≠ 0 := by omega
    obtain ⟨o, e2, c, hw, hc, hloop⟩ :=
      runLoop_allfail w pe a a.retries 0 none hr0 (fun i _ _ => hall i)
    rw [h2] at hw hloop
    simp only [Nat.zero_add] at hw hloop
    refine ⟨o, e2, c, hw, hc, by rw [h2]; exact hloop, ?_⟩
    rw [run_of_loop_result w pe a _ _ (by rw [h2]; exact hloop),
      if_pos ⟨hch, by rw [mkResRun_code]; exact hc⟩]
  · intro k hk hfail out err hw
    have hloop := runLoop_succeed w pe a k a.retries 0 none hk (Nat.le_refl _)
      (fun i _ h2 => hfail i (by omega)) out err (by simpa using hw)
    simp only [Nat.zero_add] at hloop
    rw [run_of_loop_result w pe a _ _ hloop,
      if_neg (by rintro ⟨_, hnz⟩; exact hnz (by rw [mkResRun_code]))]
  · intro h0
    constructor
    · intro out err c hw
      exact run_single w pe a out err c h0 hw
    · intro hch out err c hw
      rw [run_of_loop_result w pe a _ _ (run_single w pe a out err c h0 hw),
        if_neg (by rintro ⟨h1, _⟩; rw [hch] at h1; exact Bool.false_ne_true h1)]

/-- Witness for C2: with retries 2 the always-failing world is attempted
three times (terminal index 2) and then the failure surfaces. -/
theorem spec_C2_witness :
    ∃ out err c, wFail3 (mkCall [] aRetry2) 2 = Outcome.finished out err c ∧
      c ≠ 0 ∧
      runLoop wFail3 [] aRetry2 aRetry2.retries 0 none =
        LoopOut.result (mkResRun aRetry2 out err c) 2 ∧
      run wFail3 [] aRetry2 =
        RunOut.err (ZapError.ofResult (mkResRun aRetry2 out err c)) 2 :=
  (spec_C2 wFail3 [] aRetry2).1 rfl rfl
    (fun i => ⟨"partial", "boom", 3, rfl, by decide⟩)

/-! ### Timeout asymmetry (C3) -/

/-- C3. A timeout on the final attempt of the retry loop is re-raised
immediately, for any `check` value (the `check` field of the arguments
is arbitrary and never consulted on the timeout path); a returned
(non-raising) Result always originates from a finished attempt, so a
timeout is never downgraded to a returned Result; and a timeout on a
non-final attempt is recorded as the pending failure and retried with
an incremented attempt counter. -/
theorem spec_C3 (w : World) (pe : EnvMap) (a : RunArgs) :
    ((∀ i, i < a.retries → contAt w pe a i) →
      w (mkCall pe a) a.retries = Outcome.timeout →
      run w pe a = RunOut.timedOut a.retries) ∧
    (∀ (r : Result) (n : Nat), run w pe a = RunOut.ret r n →
      ∃ out err c, w (mkCall pe a) n = Outcome.finished out err c ∧
        r = mkResRun a out err c) ∧
    (∀ (remaining attempt : Nat) (le : Option PendErr),
      w (mkCall pe a) attempt = Outcome.timeout →
      runLoop w pe a (remaining + 1) attempt le =
        runLoop w pe a remaining (attempt + 1)
          (some (PendErr.timeoutPend a.command a.timeout))) := by
  refine ⟨?_, ?_, ?_⟩
  · intro hcont hfin
    have hloop := runLoop_timeout_chain w pe a a.retries 0 none
      (fun i h1 h2 => hcont i (by omega)) (by simpa using hfin)
    simp only [Nat.zero_add] at hloop
    exact run_of_loop_timedOut w pe a _ hloop
  · intro r n h
    cases hq : runLoop w pe a a.retries 0 none with
    | timedOut m =>
      rw [run_of_loop_timedOut w pe a m hq] at h
      simp at h
    | result r2 m =>
      rw [run_of_loop_result w pe a r2 m hq] at h
      by_cases hc : a.check = true ∧ r2.code ≠ 0
      · rw [if_pos hc] at h
        simp at h
      · rw [if_neg hc] at h
        simp only [RunOut.ret.injEq] at h
        obtain ⟨hr, hn⟩ := h
        obtain ⟨o, e2, c, hw, hr2⟩ :=
          runLoop_result_src w pe a a.retries 0 none r2 m hq
        exact ⟨o, e2, c, by rw [← hn]; exact hw, by rw [← hr]; exact hr2⟩
  · intro remaining attempt le hw
    simp [runLoop, runOnce, hw]

/-- Witness for C3: a world that always times out, with retries 1 and
`check = false`, still raises the Timeout signal at the final attempt. -/
theorem spec_C3_witness :
    run wTimeoutAll [] aRetry1NoCheck = RunOut.timedOut aRetry1NoCheck.retries :=
  (spec_C3 wTimeoutAll [] aRetry1NoCheck).1 (fun i _ => Or.inl rfl) rfl

/-! ### The pipe operator (C4) -/

/-- C4. Piping a Result into a next command executes that command with
stdin set to the Result's stdout text and `check` forced false (so the
pipe never raises the failure signal, whatever the exit code), and
returns a brand-new Result built from the child's outcome; a raw string
or list operand is run directly with all other options at their
defaults, and a Result operand reuses its stored command and stored
kwargs with stdin and check overridden. -/
theorem spec_C4 (w : World) (pe : EnvMap) (self : Result) :
    (∀ (c : String) (out err : String) (code : Int),
      w (mkCall pe (pipeArgsRaw (Cmd.str c) self.stdout)) 0 =
        Outcome.finished out err code →
      Result.pipeInto w pe self (PipeArg.rawStr c) =
        some (RunOut.ret
          (mkResRun (pipeArgsRaw (Cmd.str c) self.stdout) out err code) 0)) ∧
    (∀ (args : List String) (out err : String) (code : Int),
      w (mkCall pe (pipeArgsRaw (Cmd.argv args) self.stdout)) 0 =
        Outcome.finished out err code →
      Result.pipeInto w pe self (PipeArg.rawList args) =
        some (RunOut.ret
          (mkResRun (pipeArgsRaw (Cmd.argv args) self.stdout) out err code) 0)) ∧
    (∀ (s : Result) (c : Cmd) (out err : String) (code : Int),
      s.command = some c →
      w (mkCall pe (pipeArgsRes c s.kwargs self.stdout)) 0 =
        Outcome.finished out err code →
      Result.pipeInto w pe self (PipeArg.res s) =
        some (RunOut.ret
          (mkResRun (pipeArgsRes c s.kwargs self.stdout) out err code) 0)) ∧
    (∀ (other : PipeArg) (o : RunOut) (e : ZapError) (n : Nat),
      Result.pipeInto w pe self other = some o → o ≠ RunOut.err e n) ∧
    (∀ c : Cmd,
      (mkCall pe (pipeArgsRaw c self.stdout)).stdin = some self.stdout ∧
      (pipeArgsRaw c self.stdout).check = false ∧
      (pipeArgsRaw c self.stdout).retries = 0) ∧
    (∀ (c : Cmd) (k : Kwargs),
      (mkCall pe (pipeArgsRes c k self.stdout)).stdin = some self.stdout ∧
      (pipeArgsRes c k self.stdout).check = false ∧
      (pipeArgsRes c k self.stdout).timeout = k.timeout.getD none ∧
      (pipeArgsRes c k self.stdout).cwd = k.cwd.getD none ∧
      (pipeArgsRes c k self.stdout).env = k.env.getD none ∧
      (pipeArgsRes c k self.stdout).retries = 0) := by
  refine ⟨?_, ?_, ?_, ?_, ?_, ?_⟩
  · intro c out err code hw
    show some (run w pe (pipeArgsRaw (Cmd.str c) self.stdout)) = _
    rw [run_of_loop_result w pe _ _ _
        (run_single w pe _ out err code rfl hw),
      if_neg (by rintro ⟨h1, _⟩; exact Bool.false_ne_true h1)]
  · intro args out err code hw
    show some (run w pe (pipeArgsRaw (Cmd.argv args) self.stdout)) = _
    rw [run_of_loop_result w pe _ _ _
        (run_single w pe _ out err code rfl hw),
      if_neg (by rintro ⟨h1, _⟩; exact Bool.false_ne_true h1)]
  · intro s c out err code hcmd hw
    have hred : Result.pipeInto w pe self (PipeArg.res s) =
        some (run w pe (pipeArgsRes c s.kwargs self.stdout)) := by
      show (match s.command with
        | none => none
        | some c => some (run w pe (pipeArgsRes c s.kwargs self.stdout))) = _
      rw [hcmd]
    rw [hred,
      run_of_loop_result w pe _ _ _ (run_single w pe _ out err code rfl hw),
      if_neg (by rintro ⟨h1, _⟩; exact Bool.false_ne_true h1)]
  · intro other o e n hsome
    cases other with
    | rawStr c =>
      simp only [Result.pipeInto, Option.some.injEq] at hsome
      rw [← hsome]
      exact run_noCheck_ne_err w pe _ rfl e n
    | rawList args =>
      simp only [Result.pipeInto, Option.some.injEq] at hsome
      rw [← hsome]
      exact run_noCheck_ne_err w pe _ rfl e n
    | res s =>
      simp only [Result.pipeInto] at hsome
      cases hcmd : s.command with
      | none =>
        rw [hcmd] at hsome
        simp at hsome
      | some c =>
        rw [hcmd] at hsome
        simp only [Option.some.injEq] at hsome
        rw [← hsome]
        exact run_noCheck_ne_err w pe _ rfl e n
  · intro c
    exact ⟨rfl, rfl, rfl⟩
  · intro c k
    exact ⟨rfl, rfl, rfl, rfl, rfl, rfl⟩

/-- Witness for C4: piping a previous Result into the raw command
"wc -w" runs it with the previous stdout as stdin and returns the new
Result without raising, even though the exit code is 5. -/
theorem spec_C4_witness :
    Result.pipeInto wEcho5 [] rPrev (PipeArg.rawStr "wc -w") =
      some (RunOut.ret
        (mkResRun (pipeArgsRaw (Cmd.str "wc -w") rPrev.stdout)
          "hello world" "" 5) 0) :=
  (spec_C4 wEcho5 [] rPrev).1 "wc -w" "hello world" "" 5 rfl

/-! ### The failure signal contents (C7) -/

/-- C7. Whenever `run` raises, the failure signal carries the full
Result of the terminal attempt (the loop's final Result, built from the
finished outcome of attempt `n`), its convenience fields mirror that
Result, and its message is the stripped stderr, or the string
"Command failed with exit code N" when the stripped stderr is empty. -/
theorem spec_C7 (w : World) (pe : EnvMap) (a : RunArgs) (e : ZapError) (n : Nat)
    (h : run w pe a = RunOut.err e n) :
    runLoop w pe a a.retries 0 none = LoopOut.result e.result n ∧
    (∃ out err c, w (mkCall pe a) n = Outcome.finished out err c ∧
      e.result = mkResRun a out err c) ∧
    e.code = e.result.code ∧ e.stdout = e.result.stdout ∧
    e.stderr = e.result.stderr ∧
    (pyStripS e.result.stderr ≠ "" → e.msg = pyStripS e.result.stderr) ∧
    (pyStripS e.result.stderr = "" →
      e.msg = "Command failed with exit code " ++ toString e.result.code) := by
  cases hq : runLoop w pe a a.retries 0 none with
  | timedOut m =>
    rw [run_of_loop_timedOut w pe a m hq] at h
    simp at h
  | result r m =>
    rw [run_of_loop_result w pe a r m hq] at h
    by_cases hc : a.check = true ∧ r.code ≠ 0
    · rw [if_pos hc] at h
      simp only [RunOut.err.injEq] at h
      obtain ⟨he, hn⟩ := h
      subst hn
      rw [← he]
      refine ⟨rfl, runLoop_result_src w pe a a.retries 0 none r m hq, rfl, rfl,
        rfl, ?_, ?_⟩
      · intro hne
        have hne2 : pyStripS r.stderr ≠ "" := hne
        show pyOrS (pyStripS r.stderr) _ = _
        unfold pyOrS
        rw [if_neg hne2]
        rfl
      · intro heq
        have heq2 : pyStripS r.stderr = "" := heq
        show pyOrS (pyStripS r.stderr) _ = _
        unfold pyOrS
        rw [if_pos heq2]
        rfl
    · rw [if_neg hc] at h
      simp at h

/-- Witness for C7: empty stderr produces the fallback message naming
the exit code. -/
theorem spec_C7_witness :
    (ZapError.ofResult (mkResRun aPlain "" "" 1)).msg =
      "Command failed with exit code " ++
        toString (ZapError.ofResult (mkResRun aPlain "" "" 1)).result.code :=
  (spec_C7 wFail1 [] aPlain (ZapError.ofResult (mkResRun aPlain "" "" 1)) 0
    rfl).2.2.2.2.2.2 (by decide)

end Zap
